import Mathlib

/-!
# Verification of the educk-rs time-series core

A shallow embedding of the ENTSO-E time-series reconstruction, aggregation
and join engine of `educk-rs` (`src/entsoe/mod.rs`, `src/entsoe/analysis.rs`,
`src/server.rs`), together with proofs of the specified properties.

Modelling conventions:
* `f64` quantities are modelled by `F64 := Option ℚ`: `none` models NaN,
  `some q` models a finite value held exactly (IEEE-754 rounding, infinities
  and signed zero are not modelled; the spec's data model declares quantities
  to be real numbers).
* `chrono::DateTime<Utc>` instants are modelled as `Int` seconds since the
  Unix epoch; `chrono::Duration` is modelled as exact `Int` seconds (its
  out-of-range construction panics are outside the model).
* `HashMap` accumulation is modelled by an association list; iteration order
  of the real hash map is arbitrary, but every consumer sorts (or is
  order-insensitive over) the entries, and keys are distinct, so the
  association-list stand-in is faithful.
* Fallible Rust functions returning `Result<_, EntsoeError>` are modelled
  with `Except EntsoeError`. The HTTP fetch layer is out of scope (per the
  spec); the analysis endpoints are modelled as functions of the two fetched
  documents.
-/

/-- Models an IEEE-754 `f64` quantity: `none` is NaN, `some q` a finite
value held exactly. -/
abbrev F64 := Option ℚ

/-- `f64` addition: NaN-absorbing, exact on finite values. (Written with
`mkRat` — provably equal to `Rat.add`, see `F64.add_some` — so that concrete
runs reduce inside the kernel, where `Rat.add` is irreducible.) -/
def F64.add : F64 → F64 → F64
  | some a, some b => some (mkRat (a.num * b.den + b.num * a.den) (a.den * b.den))
  | _, _ => none

/-- `f64` subtraction: NaN-absorbing, exact on finite values. -/
def F64.sub : F64 → F64 → F64
  | some a, some b => some (mkRat (a.num * b.den - b.num * a.den) (a.den * b.den))
  | _, _ => none

theorem F64.add_some (a b : ℚ) : F64.add (some a) (some b) = some (a + b) := by
  rw [Rat.add_def']
  rfl

theorem F64.sub_some (a b : ℚ) : F64.sub (some a) (some b) = some (a - b) := by
  rw [Rat.sub_def']
  rfl

/-- Models `f64::partial_cmp`: `none` whenever either operand is NaN. -/
def F64.partialCmp : F64 → F64 → Option Ordering
  | some a, some b => some (if a < b then Ordering.lt else if a = b then Ordering.eq else Ordering.gt)
  | _, _ => none

/-- The `f64` order `a <= b` as a Boolean; false whenever either side is NaN. -/
def F64.le (a : F64) (b : F64) : Bool :=
  match a, b with
  | some x, some y => decide (x ≤ y)
  | _, _ => false

theorem F64.addAssoc (a b c : F64) : F64.add (F64.add a b) c = F64.add a (F64.add b c) := by
  cases a with
  | none => rfl
  | some x =>
    cases b with
    | none => rfl
    | some y =>
      cases c with
      | none => rfl
      | some z =>
        rw [F64.add_some, F64.add_some, F64.add_some, F64.add_some]
        exact congrArg some (add_assoc x y z)

theorem F64.addComm (a b : F64) : F64.add a b = F64.add b a := by
  cases a with
  | none => cases b <;> rfl
  | some x =>
    cases b with
    | none => rfl
    | some y =>
      rw [F64.add_some, F64.add_some]
      exact congrArg some (add_comm x y)

theorem F64.zeroAdd (a : F64) : F64.add (some 0) a = a := by
  cases a with
  | none => rfl
  | some x =>
    rw [F64.add_some]
    exact congrArg some (zero_add x)

theorem F64.addZero (a : F64) : F64.add a (some 0) = a := by
  cases a with
  | none => rfl
  | some x =>
    rw [F64.add_some]
    exact congrArg some (add_zero x)

instance : Zero F64 := ⟨some 0⟩

instance : Add F64 := ⟨F64.add⟩

instance : AddCommMonoid F64 where
  add_assoc := F64.addAssoc
  zero_add := F64.zeroAdd
  add_zero := F64.addZero
  add_comm := F64.addComm
  nsmul := nsmulRec
  nsmul_zero := fun _ => rfl
  nsmul_succ := fun _ _ => rfl

/-- Rust's `Iterator::sum::<f64>()`: a left fold of `+` starting from `0.0`. -/
def rustSum (l : List F64) : F64 := l.foldl F64.add (some 0)

theorem F64.add_eq (a b : F64) : F64.add a b = a + b := rfl

theorem F64.zero_eq : (some 0 : F64) = 0 := rfl

theorem rustSum_eq_sum (l : List F64) : rustSum l = l.sum := by
  have h : ∀ (l : List F64) (a : F64), l.foldl F64.add a = a + l.sum := by
    intro l
    induction l with
    | nil => intro a; simp
    | cons b t ih =>
      intro a
      simp only [List.foldl_cons, List.sum_cons, ih, F64.add_eq]
      rw [add_assoc]
  simp [rustSum, h, F64.zero_eq]

/-! ## Models of external `chrono` functionality

Instants are `Int` seconds since the Unix epoch, durations are `Int`
seconds. -/

/-- Two's-complement reduction of an integer into the `i32` range
`[-2^31, 2^31)`; models Rust's `as i32` cast and wrapping arithmetic. -/
def wrap32 (x : Int) : Int := Int.emod (x + 2147483648) 4294967296 - 2147483648

/-- Wrapping `i32` subtraction (release-mode Rust semantics). -/
def i32sub (a b : Int) : Int := wrap32 (a - b)

/-- Modelled from the spec: proleptic-Gregorian leap-year test used by the
external `chrono` date handling. -/
def isLeapYear (y : Int) : Bool :=
  Int.emod y 4 == 0 && (Int.emod y 100 != 0 || Int.emod y 400 == 0)

/-- Modelled from the spec: days in a Gregorian month. -/
def daysInMonth (y m : Int) : Int :=
  if m = 2 then (if isLeapYear y then 29 else 28)
  else if m = 4 ∨ m = 6 ∨ m = 9 ∨ m = 11 then 30
  else 31

/-- Modelled from the spec: days since 1970-01-01 of a Gregorian date
(Howard Hinnant's `days_from_civil` algorithm, as used by calendar
libraries such as `chrono`). -/
def daysFromCivil (y m d : Int) : Int :=
  let y' := if m ≤ 2 then y - 1 else y
  let era := Int.fdiv y' 400
  let yoe := y' - era * 400
  let mp := Int.emod (m + 9) 12
  let doy := Int.ediv (153 * mp + 2) 5 + d - 1
  let doe := yoe * 365 + Int.ediv yoe 4 - Int.ediv yoe 100 + doy
  era * 146097 + doe - 719468

/-- Numeric value of two decimal digit characters, if both are digits. -/
def twoDigits (a b : Char) : Option Nat :=
  if a.isDigit ∧ b.isDigit then some ((a.toNat - 48) * 10 + (b.toNat - 48)) else none

/-- Numeric value of four decimal digit characters, if all are digits. -/
def fourDigits (a b c d : Char) : Option Nat :=
  if a.isDigit ∧ b.isDigit ∧ c.isDigit ∧ d.isDigit then
    some (((a.toNat - 48) * 10 + (b.toNat - 48)) * 100 + (c.toNat - 48) * 10 + (d.toNat - 48))
  else none

/-- Modelled from the spec: the timezone-offset tail accepted by the external
RFC 3339 parser (`Z`, or `+HH:MM` / `-HH:MM`). -/
def parseOffset : List Char → Option Int
  | ['Z'] => some 0
  | [sg, o1, o2, ':', p1, p2] => do
      let oh ← twoDigits o1 o2
      let om ← twoDigits p1 p2
      if (sg = '+' ∨ sg = '-') ∧ oh ≤ 23 ∧ om ≤ 59 then
        some ((if sg = '+' then 1 else -1) * ((oh : Int) * 3600 + (om : Int) * 60))
      else none
  | _ => none

/-- Modelled from the spec: the external `chrono` RFC 3339 parser
(`DateTime::parse_from_rfc3339`), restricted to the subset exercised by
this program: `YYYY-MM-DDTHH:MM:SS` followed by `Z` or a `±HH:MM` offset
(fractional and leap seconds, and lowercase markers, are not modelled).
Returns the instant as seconds since the Unix epoch. -/
def parseRfc3339 (cs : List Char) : Option Int :=
  match cs with
  | y1 :: y2 :: y3 :: y4 :: '-' :: mo1 :: mo2 :: '-' :: d1 :: d2 ::
    'T' :: h1 :: h2 :: ':' :: mi1 :: mi2 :: ':' :: s1 :: s2 :: rest => do
      let y ← fourDigits y1 y2 y3 y4
      let mo ← twoDigits mo1 mo2
      let d ← twoDigits d1 d2
      let h ← twoDigits h1 h2
      let mi ← twoDigits mi1 mi2
      let s ← twoDigits s1 s2
      if 1 ≤ mo ∧ mo ≤ 12 ∧ 1 ≤ (d : Int) ∧ (d : Int) ≤ daysInMonth y mo ∧
          h ≤ 23 ∧ mi ≤ 59 ∧ s ≤ 59 then
        let off ← parseOffset rest
        some (daysFromCivil y mo d * 86400 + (h : Int) * 3600 + (mi : Int) * 60 + (s : Int) - off)
      else none
  | _ => none

/-! ## The ENTSO-E document model (`src/entsoe/mod.rs`) -/

/-- The error type of the core (`EntsoeError`). The `Request` and
`XmlParsing` variants belong to the out-of-scope HTTP/XML layer and are
never constructed by the modelled code; their foreign payloads are dropped. -/
inductive EntsoeError where
  | Request : EntsoeError
  | XmlParsing : EntsoeError
  | InvalidResponse : String → EntsoeError
  | InvalidResolution : String → EntsoeError
  | InvalidTimestamp : String → EntsoeError
deriving DecidableEq, Repr

/-- `TimeInterval` (the `end` field is renamed `end_`: `end` is reserved). -/
structure TimeInterval where
  start : String
  end_ : String
deriving DecidableEq, Repr

/-- A raw wire `Point`: 1-based `position` (a `u32`) and `quantity`. -/
structure Point where
  position : Nat
  quantity : F64
deriving DecidableEq, Repr

/-- A `Period`: interval (with start string), resolution string, points. -/
structure Period where
  time_interval : TimeInterval
  resolution : String
  points : List Point
deriving DecidableEq, Repr

/-- `AreaId` metadata. -/
structure AreaId where
  value : String
  coding_scheme : String
deriving DecidableEq, Repr

/-- `ParticipantId` metadata. -/
structure ParticipantId where
  value : String
  coding_scheme : String
deriving DecidableEq, Repr

/-- One `TimeSeries` (sub-series) of a document. -/
structure TimeSeries where
  mrid : String
  business_type : String
  object_aggregation : String
  out_bidding_zone : Option AreaId
  in_bidding_zone : Option AreaId
  quantity_measure_unit : String
  curve_type : String
  period : Period
deriving DecidableEq, Repr

/-- The top-level `GL_MarketDocument`. -/
structure GlMarketDocument where
  mrid : String
  revision_number : String
  doc_type : String
  process_type : String
  sender_mrid : ParticipantId
  sender_role : String
  receiver_mrid : ParticipantId
  receiver_role : String
  created_date_time : String
  time_period_interval : TimeInterval
  time_series : List TimeSeries
deriving DecidableEq, Repr

/-- A reconstructed point with its absolute timestamp (`TimestampedPoint`). -/
structure TimestampedPoint where
  timestamp : Int
  position : Nat
  quantity : F64
deriving DecidableEq, Repr

/-- A joined generation/load point (`RenewableSurplus`). -/
structure RenewableSurplus where
  timestamp : Int
  generation : F64
  load : F64
  surplus : F64
deriving DecidableEq, Repr

/-! ## Parsers (`parse_resolution`, `parse_timestamp`) -/

/-- Numeric value of a run of digit characters (most significant first). -/
def digitsVal (cs : List Char) : Nat :=
  cs.foldl (fun a c => 10 * a + (c.toNat - 48)) 0

/-- Models Rust's `str::parse::<i64>`: an optional `+`/`-` sign followed by
one or more ASCII digits, whose value fits in an `i64`. -/
def parseI64 (cs : List Char) : Option Int :=
  let signed : Int × List Char :=
    match cs with
    | '+' :: rest => (1, rest)
    | '-' :: rest => (-1, rest)
    | _ => (1, cs)
  if signed.2 = [] ∨ ¬ signed.2.all Char.isDigit then none
  else
    let v : Int := signed.1 * (digitsVal signed.2 : Int)
    if -9223372036854775808 ≤ v ∧ v ≤ 9223372036854775807 then some v else none

/-- `parse_resolution` (`src/entsoe/mod.rs:184`): accepts `PT<i64>M` and
returns the duration in seconds (`Duration::minutes(n)` = `60 * n` s). -/
def parse_resolution (resolution : String) : Except EntsoeError Int :=
  let cs := resolution.toList
  if ¬ cs.take 2 = ['P', 'T'] ∨ ¬ cs.getLast? = some 'M' then
    .error (.InvalidResolution resolution)
  else
    match parseI64 ((cs.drop 2).dropLast) with
    | some m => .ok (60 * m)
    | none => .error (.InvalidResolution resolution)

/-- `parse_timestamp` (`src/entsoe/mod.rs:198`): a 17-character string ending
in `Z` gets `":00"` (seconds) inserted before the `Z`, then the result is
parsed as RFC 3339. Lengths are character counts; on the ASCII strings this
code handles they coincide with Rust's byte counts, and non-ASCII strings
fail the downstream parse either way. -/
def parse_timestamp (timestamp : String) : Except EntsoeError Int :=
  let cs := timestamp.toList
  let normalized :=
    if cs.length = 17 ∧ cs.getLast? = some 'Z' then
      cs.take 16 ++ ':' :: '0' :: '0' :: cs.drop 16
    else cs
  match parseRfc3339 normalized with
  | some t => .ok t
  | none => .error (.InvalidTimestamp timestamp)

/-! ## Timestamp reconstruction (`Period::timestamped_points`) -/

/-- `Period::timestamped_points` (`src/entsoe/mod.rs:217`): parses the period
start and resolution, then maps every raw point to a timestamped point at
`start + resolution * (position as i32 - 1)`, keeping the wire position. -/
def Period.timestamped_points (p : Period) : Except EntsoeError (List TimestampedPoint) := do
  let start_time ← parse_timestamp p.time_interval.start
  let resolution_duration ← parse_resolution p.resolution
  .ok (p.points.map (fun point =>
    { timestamp := start_time + resolution_duration * i32sub (wrap32 (point.position : Int)) 1
      position := point.position
      quantity := point.quantity }))

/-! ## Cross-series aggregation (`GlMarketDocument::all_timestamped_points`) -/

/-- One step of `*timestamp_map.entry(ts).or_insert(0.0) += quantity` on the
association-list model of the `HashMap`: add to an existing entry, or append
a fresh entry initialised to `0.0 + quantity`. -/
def addPoint : List (Int × F64) → Int → F64 → List (Int × F64)
  | [], t, q => [(t, F64.add (some 0) q)]
  | (t', v) :: rest, t, q =>
      if t' = t then (t', F64.add v q) :: rest else (t', v) :: addPoint rest t q

/-- Accumulate one sub-series' reconstructed points into the map. -/
def accumPoints (m : List (Int × F64)) (pts : List TimestampedPoint) : List (Int × F64) :=
  pts.foldl (fun m p => addPoint m p.timestamp p.quantity) m

/-- The aggregation loop over all sub-series, propagating parse errors. -/
def buildMap : List TimeSeries → List (Int × F64) → Except EntsoeError (List (Int × F64))
  | [], m => .ok m
  | series :: rest, m => do
      let points ← series.period.timestamped_points
      buildMap rest (accumPoints m points)

/-- The sort key of `result.sort_by_key(|p| p.timestamp)`. -/
def tsLe (a b : TimestampedPoint) : Prop := a.timestamp ≤ b.timestamp

instance : DecidableRel tsLe := fun a b =>
  (inferInstance : Decidable (a.timestamp ≤ b.timestamp))

instance : IsTotal TimestampedPoint tsLe := ⟨fun a b => le_total a.timestamp b.timestamp⟩

instance : IsTrans TimestampedPoint tsLe := ⟨fun _ _ _ h1 h2 => le_trans h1 h2⟩

/-- The position-reassignment loop: `for (i, point) in result.iter_mut().enumerate()
{ point.position = (i + 1) as u32 }`, entered with `i + 1 = first`. -/
def renumber : Nat → List TimestampedPoint → List TimestampedPoint
  | _, [] => []
  | i, p :: rest => { p with position := i } :: renumber (i + 1) rest

/-- `GlMarketDocument::all_timestamped_points` (`src/entsoe/mod.rs:242`):
accumulate every sub-series' reconstructed points into a map keyed by
timestamp (summing quantities on collision), convert the entries back to
points with placeholder position `0`, sort ascending by timestamp, and
renumber positions `1, 2, ...` in sorted order. -/
def GlMarketDocument.all_timestamped_points (doc : GlMarketDocument) :
    Except EntsoeError (List TimestampedPoint) := do
  let m ← buildMap doc.time_series []
  let result := m.map (fun e => { timestamp := e.1, position := 0, quantity := e.2 : TimestampedPoint })
  let sorted := List.insertionSort tsLe result
  .ok (renumber 1 sorted)

/-- `GlMarketDocument::total_forecast` (`src/entsoe/mod.rs:294`): the sum over
sub-series of the sum of that sub-series' raw quantities. -/
def GlMarketDocument.total_forecast (doc : GlMarketDocument) : F64 :=
  rustSum (doc.time_series.map (fun ts => rustSum (ts.period.points.map (·.quantity))))

/-! ## Series join and surplus (`src/entsoe/analysis.rs`)

The two analysis endpoints first await two HTTP fetches; that layer is out
of scope per the spec, so they are modelled as functions of the two fetched
documents. -/

/-- `HashMap::insert` on the association-list model: overwrite or append. -/
def insertKV : List (Int × F64) → Int → F64 → List (Int × F64)
  | [], t, q => [(t, q)]
  | (t', v) :: rest, t, q =>
      if t' = t then (t', q) :: rest else (t', v) :: insertKV rest t q

/-- `HashMap::get` on the association-list model. -/
def lookupKV : List (Int × F64) → Int → Option F64
  | [], _ => none
  | (t', v) :: rest, t => if t' = t then some v else lookupKV rest t

/-- `load_points.into_iter().map(|p| (p.timestamp, p.quantity)).collect::<HashMap<_,_>>()`:
build the load lookup, later duplicates overwriting earlier ones. -/
def buildLoadMap (load_points : List TimestampedPoint) : List (Int × F64) :=
  load_points.foldl (fun m p => insertKV m p.timestamp p.quantity) []

/-- The matched-set construction shared verbatim by both analysis methods:
for each generation point whose timestamp has a load entry, emit a
`RenewableSurplus` with `surplus = generation - load`; unmatched generation
points are dropped. -/
def computeSurpluses (gen_points : List TimestampedPoint) (load_map : List (Int × F64)) :
    List RenewableSurplus :=
  gen_points.filterMap (fun gen_point =>
    (lookupKV load_map gen_point.timestamp).map (fun load =>
      { timestamp := gen_point.timestamp
        generation := gen_point.quantity
        load := load
        surplus := F64.sub gen_point.quantity load }))

/-- The comparator of the max-surplus fold:
`a.surplus.partial_cmp(&b.surplus).unwrap_or(Ordering::Equal)`. -/
def cmpSurplus (a b : RenewableSurplus) : Ordering :=
  (F64.partialCmp a.surplus b.surplus).getD Ordering.eq

/-- The fold of Rust's `Iterator::max_by`: keep the accumulator only when it
compares strictly greater, so the last of equally-maximal elements wins. -/
def maxStep (acc : RenewableSurplus) : List RenewableSurplus → RenewableSurplus
  | [] => acc
  | y :: ys => if cmpSurplus acc y = Ordering.gt then maxStep acc ys else maxStep y ys

/-- Rust's `Iterator::max_by` with the surplus comparator. -/
def rustMaxBy : List RenewableSurplus → Option RenewableSurplus
  | [] => none
  | x :: xs => some (maxStep x xs)

/-- `EntsoeClient::find_max_renewable_surplus` (`src/entsoe/analysis.rs:17`)
after the two fetches: aggregate both documents, join by timestamp, and
return the maximum-surplus point, or `InvalidResponse` if nothing matched. -/
def find_max_renewable_surplus (genDoc loadDoc : GlMarketDocument) :
    Except EntsoeError RenewableSurplus := do
  let gen_points ← genDoc.all_timestamped_points
  let load_points ← loadDoc.all_timestamped_points
  let load_map := buildLoadMap load_points
  let surpluses := computeSurpluses gen_points load_map
  match rustMaxBy surpluses with
  | some m => .ok m
  | none => .error (.InvalidResponse "No matching data points found")

/-- The sort key of `surpluses.sort_by_key(|s| s.timestamp)`. -/
def rsLe (a b : RenewableSurplus) : Prop := a.timestamp ≤ b.timestamp

instance : DecidableRel rsLe := fun a b =>
  (inferInstance : Decidable (a.timestamp ≤ b.timestamp))

instance : IsTotal RenewableSurplus rsLe := ⟨fun a b => le_total a.timestamp b.timestamp⟩

instance : IsTrans RenewableSurplus rsLe := ⟨fun _ _ _ h1 h2 => le_trans h1 h2⟩

/-- `EntsoeClient::get_renewable_surplus_series` (`src/entsoe/analysis.rs:68`)
after the two fetches: the same join, sorted ascending by timestamp. -/
def get_renewable_surplus_series (genDoc loadDoc : GlMarketDocument) :
    Except EntsoeError (List RenewableSurplus) := do
  let gen_points ← genDoc.all_timestamped_points
  let load_points ← loadDoc.all_timestamped_points
  let load_map := buildLoadMap load_points
  let surpluses := computeSurpluses gen_points load_map
  .ok (List.insertionSort rsLe surpluses)

/-! ## Extremum queries (`GlMarketDocument::min_max_with_time`) -/

/-- The fold of `Iterator::min_by` with the panicking comparator
`a.quantity.partial_cmp(&b.quantity).unwrap()`: `none` models the panic on
an unordered (NaN) pair; the first of equally-minimal elements wins. -/
def pMinStep (acc : TimestampedPoint) : List TimestampedPoint → Option TimestampedPoint
  | [] => some acc
  | y :: ys => match F64.partialCmp acc.quantity y.quantity with
      | none => none
      | some o => if o = Ordering.gt then pMinStep y ys else pMinStep acc ys

/-- `Iterator::min_by` with the panicking quantity comparator. -/
def pMinBy : List TimestampedPoint → Option TimestampedPoint
  | [] => none
  | x :: xs => pMinStep x xs

/-- The fold of `Iterator::max_by` with the panicking comparator: the last of
equally-maximal elements wins. -/
def pMaxStep (acc : TimestampedPoint) : List TimestampedPoint → Option TimestampedPoint
  | [] => some acc
  | y :: ys => match F64.partialCmp acc.quantity y.quantity with
      | none => none
      | some o => if o = Ordering.gt then pMaxStep acc ys else pMaxStep y ys

/-- `Iterator::max_by` with the panicking quantity comparator. -/
def pMaxBy : List TimestampedPoint → Option TimestampedPoint
  | [] => none
  | x :: xs => pMaxStep x xs

/-- `GlMarketDocument::min_max_with_time` (`src/entsoe/mod.rs:317`). The outer
`Option` models panic-freedom: `none` is the `partial_cmp(..).unwrap()` panic
on an unordered pair, which the claimed precondition must rule out. -/
def min_max_with_time (doc : GlMarketDocument) :
    Option (Except EntsoeError (Option (TimestampedPoint × TimestampedPoint))) :=
  match doc.all_timestamped_points with
  | .error e => some (.error e)
  | .ok points =>
    if points.isEmpty then some (.ok none)
    else match pMinBy points, pMaxBy points with
      | some mn, some mx => some (.ok (some (mn, mx)))
      | _, _ => none

/-! ## Server-side filters (`src/server.rs`) -/

/-- `chrono`'s `Timelike::hour()` for a UTC instant in epoch seconds. -/
def hourOfDay (t : Int) : Int := Int.emod (Int.ediv t 3600) 24

/-- `filter_night_hours` (`src/server.rs:87`): retain points whose UTC hour
satisfies `hour >= 22 || hour < 6`. -/
def filter_night_hours (series : List RenewableSurplus) : List RenewableSurplus :=
  series.filter (fun s => 22 ≤ hourOfDay s.timestamp ∨ hourOfDay s.timestamp < 6)

/-- The shape claimed by the spec for resolution strings: `"PT"`, then one or
more ASCII digits, then `"M"`. Used only to state claims. -/
def isDigitsForm (s : String) : Bool :=
  let cs := s.toList
  4 ≤ cs.length && cs.take 2 = ['P', 'T'] && cs.getLast? = some 'M' &&
    ((cs.drop 2).dropLast).all Char.isDigit

/-! ## Helper lemmas: the `f64` order -/

theorem F64.le_some_iff {x y : ℚ} : F64.le (some x) (some y) = true ↔ x ≤ y := by
  simp [F64.le]

theorem F64.le_trans {a b c : F64} (h1 : F64.le a b = true) (h2 : F64.le b c = true) :
    F64.le a c = true := by
  cases a with
  | none => simp [F64.le] at h1
  | some x =>
    cases b with
    | none => simp [F64.le] at h1
    | some y =>
      cases c with
      | none => simp [F64.le] at h2
      | some z =>
        rw [F64.le_some_iff] at h1 h2 ⊢
        exact h1.trans h2

theorem F64.add_ne_none {a b : F64} (ha : a ≠ none) (hb : b ≠ none) : F64.add a b ≠ none := by
  cases a with
  | none => exact absurd rfl ha
  | some x =>
    cases b with
    | none => exact absurd rfl hb
    | some y => rw [F64.add_some]; exact Option.some_ne_none _

/-- The three-way rational comparison used inside `F64.partialCmp`. -/
theorem cmpQ_gt_iff (x y : ℚ) :
    (if x < y then Ordering.lt else if x = y then Ordering.eq else Ordering.gt) = Ordering.gt
      ↔ y < x := by
  rcases lt_trichotomy x y with h | h | h
  · simp [if_pos h, lt_asymm h]
  · subst h
    simp
  · have hnlt : ¬ x < y := lt_asymm h
    have hne : x ≠ y := ne_of_gt h
    simp [if_neg hnlt, if_neg hne, h]

theorem F64.partialCmp_some_gt_iff {x y : ℚ} :
    F64.partialCmp (some x) (some y) = some Ordering.gt ↔ y < x := by
  show some _ = some _ ↔ _
  rw [Option.some_inj]
  exact cmpQ_gt_iff x y

theorem F64.partialCmp_some_not_gt {x y : ℚ}
    (h : ¬ F64.partialCmp (some x) (some y) = some Ordering.gt) : x ≤ y :=
  le_of_not_lt (fun hlt => h (F64.partialCmp_some_gt_iff.mpr hlt))

theorem cmpSurplus_some {a b : RenewableSurplus} {x y : ℚ}
    (ha : a.surplus = some x) (hb : b.surplus = some y) :
    (cmpSurplus a b = Ordering.gt ↔ y < x) := by
  rw [cmpSurplus, ha, hb]
  show (some _).getD _ = _ ↔ _
  rw [Option.getD_some]
  exact cmpQ_gt_iff x y

/-! ## Helper lemmas: `Except` bind -/

theorem exc_bind_ok {ε α β : Type} (a : α) (f : α → Except ε β) :
    (Except.ok a >>= f) = f a := rfl

theorem exc_bind_error {ε α β : Type} (e : ε) (f : α → Except ε β) :
    ((Except.error e : Except ε α) >>= f) = Except.error e := rfl

/-! ## Helper lemmas: timestamp reconstruction -/

theorem Period.timestamped_points_ok {p : Period} {pts : List TimestampedPoint}
    (h : p.timestamped_points = .ok pts) :
    ∃ start res, parse_timestamp p.time_interval.start = .ok start ∧
      parse_resolution p.resolution = .ok res ∧
      pts = p.points.map (fun point =>
        { timestamp := start + res * i32sub (wrap32 (point.position : Int)) 1
          position := point.position
          quantity := point.quantity }) := by
  unfold Period.timestamped_points at h
  cases hs : parse_timestamp p.time_interval.start with
  | error e => rw [hs, exc_bind_error] at h; exact absurd h (by simp)
  | ok start =>
    rw [hs, exc_bind_ok] at h
    cases hr : parse_resolution p.resolution with
    | error e => rw [hr, exc_bind_error] at h; exact absurd h (by simp)
    | ok res =>
      rw [hr, exc_bind_ok] at h
      exact ⟨start, res, rfl, rfl, (Except.ok.inj h).symm⟩

/-! ## Helper lemmas: the accumulation map -/

theorem map_snd_addPoint_sum (m : List (Int × F64)) (t : Int) (q : F64) :
    ((addPoint m t q).map Prod.snd).sum = (m.map Prod.snd).sum + q := by
  induction m with
  | nil => simp [addPoint, F64.add_eq, F64.zero_eq]
  | cons hd tl ih =>
    obtain ⟨t', v⟩ := hd
    by_cases h : t' = t
    · simp only [addPoint, if_pos h, List.map_cons, List.sum_cons, F64.add_eq]
      abel
    · simp only [addPoint, if_neg h, List.map_cons, List.sum_cons, ih]
      abel

theorem keysOf_addPoint (m : List (Int × F64)) (t : Int) (q : F64) :
    (addPoint m t q).map Prod.fst =
      if t ∈ m.map Prod.fst then m.map Prod.fst else m.map Prod.fst ++ [t] := by
  induction m with
  | nil => simp [addPoint]
  | cons hd tl ih =>
    obtain ⟨t', v⟩ := hd
    by_cases h : t' = t
    · simp [addPoint, h]
    · have hne : ¬ t = t' := fun hh => h hh.symm
      by_cases hmem : t ∈ tl.map Prod.fst
      · simp [addPoint, h, ih, hmem, hne]
      · simp [addPoint, h, ih, hmem, hne]

theorem nodup_keysOf_addPoint {m : List (Int × F64)} (t : Int) (q : F64)
    (h : (m.map Prod.fst).Nodup) : ((addPoint m t q).map Prod.fst).Nodup := by
  rw [keysOf_addPoint]
  by_cases hmem : t ∈ m.map Prod.fst
  · simpa [hmem] using h
  · simp only [if_neg hmem]
    simp [List.nodup_append, h, hmem]

theorem snd_addPoint_ne_none {m : List (Int × F64)} {t : Int} {q : F64}
    (hm : ∀ v ∈ m.map Prod.snd, v ≠ none) (hq : q ≠ none) :
    ∀ v ∈ (addPoint m t q).map Prod.snd, v ≠ none := by
  induction m with
  | nil =>
    intro v hv
    simp only [addPoint, List.map_cons, List.map_nil, List.mem_singleton] at hv
    subst hv
    exact F64.add_ne_none (by simp) hq
  | cons hd tl ih =>
    obtain ⟨t', w⟩ := hd
    have hmw : w ≠ none := hm w (List.mem_cons_self _ _)
    have hmtl : ∀ v ∈ tl.map Prod.snd, v ≠ none :=
      fun v hv => hm v (List.mem_cons_of_mem _ hv)
    intro v hv
    by_cases h : t' = t
    · simp only [addPoint, if_pos h, List.map_cons, List.mem_cons] at hv
      rcases hv with hv | hv
      · subst hv
        exact F64.add_ne_none hmw hq
      · exact hmtl v hv
    · simp only [addPoint, if_neg h, List.map_cons, List.mem_cons] at hv
      rcases hv with hv | hv
      · subst hv
        exact hmw
      · exact ih hmtl v hv

theorem accumPoints_sum (pts : List TimestampedPoint) :
    ∀ m : List (Int × F64),
      ((accumPoints m pts).map Prod.snd).sum =
        (m.map Prod.snd).sum + (pts.map (·.quantity)).sum := by
  induction pts with
  | nil => intro m; simp [accumPoints]
  | cons p ps ih =>
    intro m
    show ((accumPoints (addPoint m p.timestamp p.quantity) ps).map Prod.snd).sum = _
    rw [ih, map_snd_addPoint_sum]
    simp only [List.map_cons, List.sum_cons]
    abel

theorem accumPoints_nodup (pts : List TimestampedPoint) :
    ∀ m : List (Int × F64), (m.map Prod.fst).Nodup →
      ((accumPoints m pts).map Prod.fst).Nodup := by
  induction pts with
  | nil => intro m h; exact h
  | cons p ps ih =>
    intro m h
    exact ih _ (nodup_keysOf_addPoint _ _ h)

theorem accumPoints_ne_none (pts : List TimestampedPoint)
    (hpts : ∀ p ∈ pts, p.quantity ≠ none) :
    ∀ m : List (Int × F64), (∀ v ∈ m.map Prod.snd, v ≠ none) →
      ∀ v ∈ (accumPoints m pts).map Prod.snd, v ≠ none := by
  induction pts with
  | nil => intro m h; exact h
  | cons p ps ih =>
    intro m h
    exact ih (fun x hx => hpts x (List.mem_cons_of_mem _ hx)) _
      (snd_addPoint_ne_none h (hpts p (List.mem_cons_self _ _)))

/-! ## Helper lemmas: the aggregation loop -/

theorem buildMap_ok_sum :
    ∀ (ls : List TimeSeries) (m m' : List (Int × F64)), buildMap ls m = .ok m' →
      (m'.map Prod.snd).sum =
        (m.map Prod.snd).sum + (ls.map (fun s => (s.period.points.map (·.quantity)).sum)).sum := by
  intro ls
  induction ls with
  | nil =>
    intro m m' h
    cases h
    simp
  | cons s rest ih =>
    intro m m' h
    rw [buildMap] at h
    cases hs : s.period.timestamped_points with
    | error e => rw [hs, exc_bind_error] at h; exact absurd h (by simp)
    | ok pts =>
      rw [hs, exc_bind_ok] at h
      obtain ⟨start, res, -, -, hpts⟩ := Period.timestamped_points_ok hs
      have hq : pts.map (·.quantity) = s.period.points.map (·.quantity) := by
        rw [hpts, List.map_map]
        rfl
      rw [ih _ _ h, accumPoints_sum, hq]
      simp only [List.map_cons, List.sum_cons]
      abel

theorem buildMap_ok_nodup :
    ∀ (ls : List TimeSeries) (m m' : List (Int × F64)), buildMap ls m = .ok m' →
      (m.map Prod.fst).Nodup → (m'.map Prod.fst).Nodup := by
  intro ls
  induction ls with
  | nil =>
    intro m m' h hm
    cases h
    exact hm
  | cons s rest ih =>
    intro m m' h hm
    rw [buildMap] at h
    cases hs : s.period.timestamped_points with
    | error e => rw [hs, exc_bind_error] at h; exact absurd h (by simp)
    | ok pts =>
      rw [hs, exc_bind_ok] at h
      exact ih _ _ h (accumPoints_nodup pts m hm)

theorem buildMap_ok_ne_none :
    ∀ (ls : List TimeSeries) (m m' : List (Int × F64)), buildMap ls m = .ok m' →
      (∀ s ∈ ls, ∀ pt ∈ s.period.points, pt.quantity ≠ none) →
      (∀ v ∈ m.map Prod.snd, v ≠ none) → ∀ v ∈ m'.map Prod.snd, v ≠ none := by
  intro ls
  induction ls with
  | nil =>
    intro m m' h _ hm
    cases h
    exact hm
  | cons s rest ih =>
    intro m m' h hraw hm
    rw [buildMap] at h
    cases hs : s.period.timestamped_points with
    | error e => rw [hs, exc_bind_error] at h; exact absurd h (by simp)
    | ok pts =>
      rw [hs, exc_bind_ok] at h
      obtain ⟨start, res, -, -, hpts⟩ := Period.timestamped_points_ok hs
      have hptsq : ∀ p ∈ pts, p.quantity ≠ none := by
        intro p hp
        rw [hpts] at hp
        obtain ⟨pt, hpt, rfl⟩ := List.mem_map.mp hp
        exact hraw s (List.mem_cons_self _ _) pt hpt
      exact ih _ _ h (fun u hu => hraw u (List.mem_cons_of_mem _ hu))
        (accumPoints_ne_none pts hptsq m hm)

/-! ## Helper lemmas: renumbering and the aggregated output -/

theorem renumber_map_timestamp :
    ∀ (i : Nat) (l : List TimestampedPoint),
      (renumber i l).map (·.timestamp) = l.map (·.timestamp) := by
  intro i l
  induction l generalizing i with
  | nil => rfl
  | cons p rest ih => simp [renumber, ih]

theorem renumber_map_quantity :
    ∀ (i : Nat) (l : List TimestampedPoint),
      (renumber i l).map (·.quantity) = l.map (·.quantity) := by
  intro i l
  induction l generalizing i with
  | nil => rfl
  | cons p rest ih => simp [renumber, ih]

theorem renumber_map_position :
    ∀ (i : Nat) (l : List TimestampedPoint),
      (renumber i l).map (·.position) = List.range' i l.length := by
  intro i l
  induction l generalizing i with
  | nil => rfl
  | cons p rest ih => simp [renumber, ih, List.range']

theorem mem_renumber {p : TimestampedPoint} :
    ∀ {i : Nat} {l : List TimestampedPoint}, p ∈ renumber i l →
      ∃ q ∈ l, q.timestamp = p.timestamp ∧ q.quantity = p.quantity := by
  intro i l
  induction l generalizing i with
  | nil => intro h; cases h
  | cons x rest ih =>
    intro h
    rcases List.mem_cons.mp h with h | h
    · exact ⟨x, List.mem_cons_self _ _, by rw [h], by rw [h]⟩
    · obtain ⟨q, hq, hts, hqty⟩ := ih h
      exact ⟨q, List.mem_cons_of_mem _ hq, hts, hqty⟩

theorem all_timestamped_points_ok {doc : GlMarketDocument} {pts : List TimestampedPoint}
    (h : doc.all_timestamped_points = .ok pts) :
    ∃ m, buildMap doc.time_series [] = .ok m ∧
      pts = renumber 1 (List.insertionSort tsLe
        (m.map (fun e => { timestamp := e.1, position := 0, quantity := e.2 : TimestampedPoint }))) := by
  unfold GlMarketDocument.all_timestamped_points at h
  cases hm : buildMap doc.time_series [] with
  | error e => rw [hm, exc_bind_error] at h; exact absurd h (by simp)
  | ok m =>
    rw [hm, exc_bind_ok] at h
    exact ⟨m, rfl, (Except.ok.inj h).symm⟩

theorem conv_map_timestamp (m : List (Int × F64)) :
    (m.map (fun e => { timestamp := e.1, position := 0, quantity := e.2 : TimestampedPoint })).map
      (·.timestamp) = m.map Prod.fst := by
  rw [List.map_map]
  rfl

theorem conv_map_quantity (m : List (Int × F64)) :
    (m.map (fun e => { timestamp := e.1, position := 0, quantity := e.2 : TimestampedPoint })).map
      (·.quantity) = m.map Prod.snd := by
  rw [List.map_map]
  rfl

/-! ## Helper lemmas: the load lookup and the join -/

theorem lookup_insertKV (m : List (Int × F64)) (t : Int) (q : F64) (u : Int) :
    lookupKV (insertKV m t q) u = if u = t then some q else lookupKV m u := by
  induction m with
  | nil =>
    by_cases h : u = t
    · subst h
      simp [insertKV, lookupKV]
    · have h2 : ¬ t = u := fun hh => h hh.symm
      simp [insertKV, lookupKV, h, h2]
  | cons hd tl ih =>
    obtain ⟨t', v⟩ := hd
    by_cases h : t' = t
    · subst h
      by_cases hu : u = t'
      · subst hu
        simp [insertKV, lookupKV]
      · have h2 : ¬ t' = u := fun hh => hu hh.symm
        simp [insertKV, lookupKV, hu, h2]
    · by_cases hu : u = t'
      · subst hu
        have h2 : ¬ t = u := fun hh => h hh.symm
        simp [insertKV, lookupKV, h, h2]
      · have h2 : ¬ t' = u := fun hh => hu hh.symm
        simp [insertKV, lookupKV, h, h2, hu, ih]

theorem lookup_foldl_insert_some :
    ∀ (lp : List TimestampedPoint) (m : List (Int × F64)) (t : Int) (q : F64),
      lookupKV (lp.foldl (fun m p => insertKV m p.timestamp p.quantity) m) t = some q →
      (∃ l ∈ lp, l.timestamp = t ∧ l.quantity = q) ∨ lookupKV m t = some q := by
  intro lp
  induction lp with
  | nil => intro m t q h; exact Or.inr h
  | cons p ps ih =>
    intro m t q h
    rcases ih _ _ _ h with hin | hm
    · obtain ⟨l, hl, hts, hq⟩ := hin
      exact Or.inl ⟨l, List.mem_cons_of_mem _ hl, hts, hq⟩
    · rw [lookup_insertKV] at hm
      by_cases ht : t = p.timestamp
      · rw [if_pos ht] at hm
        exact Or.inl ⟨p, List.mem_cons_self _ _, ht.symm, Option.some.inj hm⟩
      · rw [if_neg ht] at hm
        exact Or.inr hm

theorem lookup_buildLoadMap_some {lp : List TimestampedPoint} {t : Int} {q : F64}
    (h : lookupKV (buildLoadMap lp) t = some q) :
    ∃ l ∈ lp, l.timestamp = t ∧ l.quantity = q := by
  rcases lookup_foldl_insert_some lp [] t q h with hin | hm
  · exact hin
  · exact absurd hm (by simp [lookupKV])

theorem mem_computeSurpluses {gen : List TimestampedPoint} {lm : List (Int × F64)}
    {p : RenewableSurplus} :
    p ∈ computeSurpluses gen lm ↔
      ∃ g ∈ gen, ∃ load, lookupKV lm g.timestamp = some load ∧
        p = { timestamp := g.timestamp, generation := g.quantity, load := load,
              surplus := F64.sub g.quantity load } := by
  constructor
  · intro h
    obtain ⟨g, hg, hfg⟩ := List.mem_filterMap.mp h
    cases hl : lookupKV lm g.timestamp with
    | none => rw [hl] at hfg; cases hfg
    | some load =>
      rw [hl] at hfg
      simp only [Option.map_some'] at hfg
      exact ⟨g, hg, load, hl, (Option.some.inj hfg).symm⟩
  · rintro ⟨g, hg, load, hl, rfl⟩
    exact List.mem_filterMap.mpr ⟨g, hg, by rw [hl]; rfl⟩

/-! ## Helper lemmas: the max-surplus fold -/

theorem maxStep_mem : ∀ (l : List RenewableSurplus) (acc : RenewableSurplus),
    maxStep acc l ∈ acc :: l := by
  intro l
  induction l with
  | nil => intro acc; simp [maxStep]
  | cons y ys ih =>
    intro acc
    rw [maxStep]
    by_cases h : cmpSurplus acc y = Ordering.gt
    · rw [if_pos h]
      rcases List.mem_cons.mp (ih acc) with h1 | h1
      · exact List.mem_cons.mpr (Or.inl h1)
      · exact List.mem_cons_of_mem _ (List.mem_cons_of_mem _ h1)
    · rw [if_neg h]
      exact List.mem_cons_of_mem _ (ih y)

theorem maxStep_ge : ∀ (l : List RenewableSurplus) (acc : RenewableSurplus),
    (∀ y ∈ acc :: l, y.surplus ≠ none) →
    (F64.le acc.surplus (maxStep acc l).surplus = true ∧
      ∀ y ∈ l, F64.le y.surplus (maxStep acc l).surplus = true) := by
  intro l
  induction l with
  | nil =>
    intro acc h
    refine ⟨?_, by intro y hy; cases hy⟩
    obtain ⟨a, ha⟩ := Option.ne_none_iff_exists'.mp (h acc (List.mem_cons_self _ _))
    rw [maxStep, ha, F64.le_some_iff]
  | cons y ys ih =>
    intro acc h
    have hacc : acc.surplus ≠ none := h acc (List.mem_cons_self _ _)
    have hy : y.surplus ≠ none := h y (List.mem_cons_of_mem _ (List.mem_cons_self _ _))
    obtain ⟨a, ha⟩ := Option.ne_none_iff_exists'.mp hacc
    obtain ⟨b, hb⟩ := Option.ne_none_iff_exists'.mp hy
    rw [maxStep]
    by_cases hc : cmpSurplus acc y = Ordering.gt
    · rw [if_pos hc]
      have hba : b < a := (cmpSurplus_some ha hb).mp hc
      have hrec := ih acc (fun z hz => by
        rcases List.mem_cons.mp hz with hz | hz
        · subst hz; exact hacc
        · exact h z (List.mem_cons_of_mem _ (List.mem_cons_of_mem _ hz)))
      refine ⟨hrec.1, ?_⟩
      intro z hz
      rcases List.mem_cons.mp hz with hz | hz
      · subst hz
        have hzacc : F64.le z.surplus acc.surplus = true := by
          rw [hb, ha, F64.le_some_iff]
          exact le_of_lt hba
        exact F64.le_trans hzacc hrec.1
      · exact hrec.2 z hz
    · rw [if_neg hc]
      have hab : a ≤ b := by
        refine F64.partialCmp_some_not_gt (fun hgt => hc ?_)
        rw [cmpSurplus, ha, hb, hgt]
        rfl
      have hrec := ih y (fun z hz => by
        rcases List.mem_cons.mp hz with hz | hz
        · subst hz; exact hy
        · exact h z (List.mem_cons_of_mem _ (List.mem_cons_of_mem _ hz)))
      have haccy : F64.le acc.surplus y.surplus = true := by
        rw [ha, hb, F64.le_some_iff]
        exact hab
      refine ⟨F64.le_trans haccy hrec.1, ?_⟩
      intro z hz
      rcases List.mem_cons.mp hz with hz | hz
      · subst hz; exact hrec.1
      · exact hrec.2 z hz

/-! ## Helper lemmas: the panicking min/max folds -/

theorem pMinStep_sound : ∀ (l : List TimestampedPoint) (acc : TimestampedPoint),
    acc.quantity ≠ none → (∀ p ∈ l, p.quantity ≠ none) →
    ∃ r, pMinStep acc l = some r ∧ r ∈ acc :: l ∧
      F64.le r.quantity acc.quantity = true ∧
      ∀ p ∈ l, F64.le r.quantity p.quantity = true := by
  intro l
  induction l with
  | nil =>
    intro acc hacc _
    obtain ⟨a, ha⟩ := Option.ne_none_iff_exists'.mp hacc
    exact ⟨acc, rfl, List.mem_cons_self _ _, by rw [ha, F64.le_some_iff],
      by intro p hp; cases hp⟩
  | cons y ys ih =>
    intro acc hacc hl
    have hy : y.quantity ≠ none := hl y (List.mem_cons_self _ _)
    have hys : ∀ p ∈ ys, p.quantity ≠ none := fun p hp => hl p (List.mem_cons_of_mem _ hp)
    obtain ⟨a, ha⟩ := Option.ne_none_iff_exists'.mp hacc
    obtain ⟨b, hb⟩ := Option.ne_none_iff_exists'.mp hy
    have heq : pMinStep acc (y :: ys) =
        if (if a < b then Ordering.lt else if a = b then Ordering.eq else Ordering.gt) =
          Ordering.gt then pMinStep y ys else pMinStep acc ys := by
      rw [pMinStep, ha, hb]
      rfl
    by_cases hgt :
      (if a < b then Ordering.lt else if a = b then Ordering.eq else Ordering.gt) = Ordering.gt
    · rw [if_pos hgt] at heq
      have hba : b < a := (cmpQ_gt_iff a b).mp hgt
      obtain ⟨r, hr, hrmem, hry, hrys⟩ := ih y hy hys
      refine ⟨r, heq.trans hr, List.mem_cons_of_mem _ hrmem, ?_, ?_⟩
      · refine F64.le_trans hry ?_
        rw [hb, ha, F64.le_some_iff]
        exact le_of_lt hba
      · intro p hp
        rcases List.mem_cons.mp hp with hp | hp
        · subst hp; exact hry
        · exact hrys p hp
    · rw [if_neg hgt] at heq
      have hab : a ≤ b := le_of_not_lt (fun hlt => hgt ((cmpQ_gt_iff a b).mpr hlt))
      obtain ⟨r, hr, hrmem, hracc, hrys⟩ := ih acc hacc hys
      refine ⟨r, heq.trans hr, ?_, hracc, ?_⟩
      · rcases List.mem_cons.mp hrmem with hm | hm
        · exact List.mem_cons.mpr (Or.inl hm)
        · exact List.mem_cons_of_mem _ (List.mem_cons_of_mem _ hm)
      · intro p hp
        rcases List.mem_cons.mp hp with hp | hp
        · subst hp
          refine F64.le_trans hracc ?_
          rw [ha, hb, F64.le_some_iff]
          exact hab
        · exact hrys p hp

theorem pMaxStep_sound : ∀ (l : List TimestampedPoint) (acc : TimestampedPoint),
    acc.quantity ≠ none → (∀ p ∈ l, p.quantity ≠ none) →
    ∃ r, pMaxStep acc l = some r ∧ r ∈ acc :: l ∧
      F64.le acc.quantity r.quantity = true ∧
      ∀ p ∈ l, F64.le p.quantity r.quantity = true := by
  intro l
  induction l with
  | nil =>
    intro acc hacc _
    obtain ⟨a, ha⟩ := Option.ne_none_iff_exists'.mp hacc
    exact ⟨acc, rfl, List.mem_cons_self _ _, by rw [ha, F64.le_some_iff],
      by intro p hp; cases hp⟩
  | cons y ys ih =>
    intro acc hacc hl
    have hy : y.quantity ≠ none := hl y (List.mem_cons_self _ _)
    have hys : ∀ p ∈ ys, p.quantity ≠ none := fun p hp => hl p (List.mem_cons_of_mem _ hp)
    obtain ⟨a, ha⟩ := Option.ne_none_iff_exists'.mp hacc
    obtain ⟨b, hb⟩ := Option.ne_none_iff_exists'.mp hy
    have heq : pMaxStep acc (y :: ys) =
        if (if a < b then Ordering.lt else if a = b then Ordering.eq else Ordering.gt) =
          Ordering.gt then pMaxStep acc ys else pMaxStep y ys := by
      rw [pMaxStep, ha, hb]
      rfl
    by_cases hgt :
      (if a < b then Ordering.lt else if a = b then Ordering.eq else Ordering.gt) = Ordering.gt
    · rw [if_pos hgt] at heq
      have hba : b < a := (cmpQ_gt_iff a b).mp hgt
      obtain ⟨r, hr, hrmem, hracc, hrys⟩ := ih acc hacc hys
      refine ⟨r, heq.trans hr, ?_, hracc, ?_⟩
      · rcases List.mem_cons.mp hrmem with hm | hm
        · exact List.mem_cons.mpr (Or.inl hm)
        · exact List.mem_cons_of_mem _ (List.mem_cons_of_mem _ hm)
      · intro p hp
        rcases List.mem_cons.mp hp with hp | hp
        · subst hp
          refine F64.le_trans ?_ hracc
          rw [hb, ha, F64.le_some_iff]
          exact le_of_lt hba
        · exact hrys p hp
    · rw [if_neg hgt] at heq
      have hab : a ≤ b := le_of_not_lt (fun hlt => hgt ((cmpQ_gt_iff a b).mpr hlt))
      obtain ⟨r, hr, hrmem, hry, hrys⟩ := ih y hy hys
      refine ⟨r, heq.trans hr, List.mem_cons_of_mem _ hrmem, ?_, ?_⟩
      · refine F64.le_trans ?_ hry
        rw [ha, hb, F64.le_some_iff]
        exact hab
      · intro p hp
        rcases List.mem_cons.mp hp with hp | hp
        · subst hp; exact hry
        · exact hrys p hp

/-! ## Helper lemmas: the `PT...M` shape and the `i32` cast -/

theorem ptm_shape_fields {t : List Char} :
    ('P' :: 'T' :: (t ++ ['M'])).take 2 = ['P', 'T'] ∧
      ('P' :: 'T' :: (t ++ ['M'])).getLast? = some 'M' ∧
      (('P' :: 'T' :: (t ++ ['M'])).drop 2).dropLast = t := by
  refine ⟨rfl, ?_, ?_⟩
  · show (('P' :: 'T' :: t) ++ ['M']).getLast? = some 'M'
    exact List.getLast?_concat _
  · show (t ++ ['M']).dropLast = t
    exact List.dropLast_concat

theorem ptm_shape_of_fields : ∀ {cs : List Char}, cs.take 2 = ['P', 'T'] →
    cs.getLast? = some 'M' → cs = 'P' :: 'T' :: (((cs.drop 2).dropLast) ++ ['M']) := by
  intro cs h1 h2
  match cs, h1 with
  | [], h1 => simp at h1
  | [a], h1 => simp at h1
  | a :: b :: rest, h1 =>
    have hab : a = 'P' ∧ b = 'T' := by simpa using h1
    obtain ⟨rfl, rfl⟩ := hab
    cases rest with
    | nil => simp at h2
    | cons c cc =>
      rw [List.getLast?_cons_cons, List.getLast?_cons_cons,
        List.getLast?_eq_getLast (c :: cc) (by simp)] at h2
      have hM : (c :: cc).getLast (by simp) = 'M' := Option.some.inj h2
      show _ = 'P' :: 'T' :: (((c :: cc).dropLast) ++ ['M'])
      rw [← hM, List.dropLast_append_getLast]

theorem wrap32_eq_self {x : Int} (h1 : -2147483648 ≤ x) (h2 : x < 2147483648) :
    wrap32 x = x := by
  unfold wrap32
  have : Int.emod (x + 2147483648) 4294967296 = x + 2147483648 :=
    Int.emod_eq_of_lt (by omega) (by omega)
  omega

/-- For `u32` positions below `2^31`, Rust's `position as i32 - 1` is just
`position - 1`. -/
theorem i32sub_small {n : Nat} (h : n < 2147483648) :
    i32sub (wrap32 (n : Int)) 1 = (n : Int) - 1 := by
  have h0 : wrap32 (n : Int) = (n : Int) :=
    wrap32_eq_self (by omega) (by exact_mod_cast h)
  rw [i32sub, h0]
  exact wrap32_eq_self (by omega) (by omega)

/-! ## Concrete sample inputs (used by witnesses and counterexamples) -/

/-- The generation-side sample sub-series (the repository's own test data):
hourly resolution from `2023-08-14T00:00Z`, quantities 4933, 4832, 4911. -/
def sampleSeries : TimeSeries :=
  { mrid := "1", business_type := "A04", object_aggregation := "A01",
    out_bidding_zone := some ⟨"10YCZ-CEPS-----N", "A01"⟩, in_bidding_zone := none,
    quantity_measure_unit := "MAW", curve_type := "A03",
    period := { time_interval := { start := "2023-08-14T00:00Z", end_ := "2023-08-17T00:00Z" },
                resolution := "PT60M",
                points := [⟨1, some 4933⟩, ⟨2, some 4832⟩, ⟨3, some 4911⟩] } }

/-- A sample document holding `sampleSeries`. -/
def sampleDoc : GlMarketDocument :=
  { mrid := "test123", revision_number := "1", doc_type := "A65", process_type := "A01",
    sender_mrid := ⟨"10X1001A1001A450", "A01"⟩, sender_role := "A32",
    receiver_mrid := ⟨"10X1001A1001A450", "A01"⟩, receiver_role := "A33",
    created_date_time := "2026-01-07T19:26:41Z",
    time_period_interval := ⟨"2023-08-14T00:00Z", "2023-08-17T00:00Z"⟩,
    time_series := [sampleSeries] }

/-- A load-side sample document over the same three hours, quantities
80, 200, 100. -/
def loadDoc : GlMarketDocument :=
  { sampleDoc with
    time_series := [{ sampleSeries with
      period := { sampleSeries.period with
        points := [⟨1, some 80⟩, ⟨2, some 200⟩, ⟨3, some 100⟩] } }] }

/-- A document with no sub-series at all. -/
def emptyDoc : GlMarketDocument := { sampleDoc with time_series := [] }

/-- A document whose only sub-series has an empty point list but
well-formed start and resolution strings. -/
def emptyPointsDoc : GlMarketDocument :=
  { sampleDoc with
    time_series := [{ sampleSeries with
      period := { sampleSeries.period with points := [] } }] }

/-- A document whose only sub-series has an empty point list and an
unparseable start timestamp. -/
def badStartDoc : GlMarketDocument :=
  { sampleDoc with
    time_series := [{ sampleSeries with
      period := { time_interval := ⟨"x", "y"⟩, resolution := "bad", points := [] } }] }

/-- A period holding a single point whose `u32` position `2^31 + 1`
overflows the `as i32` cast in the offset computation. -/
def wrapPeriod : Period :=
  { time_interval := { start := "2023-08-14T00:00Z", end_ := "2023-08-17T00:00Z" },
    resolution := "PT1M",
    points := [⟨2147483649, some 1⟩] }

/-! ## Helper lemmas: remaining structure -/

theorem renumber_length : ∀ (i : Nat) (l : List TimestampedPoint),
    (renumber i l).length = l.length := by
  intro i l
  induction l generalizing i with
  | nil => rfl
  | cons p rest ih => simp [renumber, ih]

theorem get_renewable_surplus_series_ok {g l : GlMarketDocument} {s : List RenewableSurplus}
    (h : get_renewable_surplus_series g l = .ok s) :
    ∃ gp lp, g.all_timestamped_points = .ok gp ∧ l.all_timestamped_points = .ok lp ∧
      s = List.insertionSort rsLe (computeSurpluses gp (buildLoadMap lp)) := by
  unfold get_renewable_surplus_series at h
  cases hg : g.all_timestamped_points with
  | error e => rw [hg, exc_bind_error] at h; exact absurd h (by simp)
  | ok gp =>
    rw [hg, exc_bind_ok] at h
    cases hl : l.all_timestamped_points with
    | error e => rw [hl, exc_bind_error] at h; exact absurd h (by simp)
    | ok lp =>
      rw [hl, exc_bind_ok] at h
      exact ⟨gp, lp, rfl, rfl, (Except.ok.inj h).symm⟩

theorem computeSurpluses_sound {gen load : List TimestampedPoint} {p : RenewableSurplus}
    (h : p ∈ computeSurpluses gen (buildLoadMap load)) :
    (∃ g ∈ gen, g.timestamp = p.timestamp ∧ p.generation = g.quantity) ∧
      (∃ l ∈ load, l.timestamp = p.timestamp ∧ p.load = l.quantity) ∧
      p.surplus = F64.sub p.generation p.load := by
  obtain ⟨g, hg, load_, hl, rfl⟩ := mem_computeSurpluses.mp h
  refine ⟨⟨g, hg, rfl, rfl⟩, ?_, rfl⟩
  obtain ⟨l, hlmem, hlts, hlq⟩ := lookup_buildLoadMap_some hl
  exact ⟨l, hlmem, hlts, hlq.symm⟩

theorem buildMap_id_of_empty_points :
    ∀ (ls : List TimeSeries),
      (∀ ts ∈ ls, ts.period.points = [] ∧
        (∃ t, parse_timestamp ts.period.time_interval.start = .ok t) ∧
        (∃ r, parse_resolution ts.period.resolution = .ok r)) →
      ∀ m, buildMap ls m = .ok m := by
  intro ls
  induction ls with
  | nil => intro _ m; rfl
  | cons s rest ih =>
    intro h m
    obtain ⟨hpts, ⟨t, ht⟩, ⟨r, hr⟩⟩ := h s (List.mem_cons_self _ _)
    have hsp : s.period.timestamped_points = .ok [] := by
      unfold Period.timestamped_points
      rw [ht, exc_bind_ok, hr, exc_bind_ok, hpts]
      rfl
    rw [buildMap, hsp, exc_bind_ok]
    exact ih (fun u hu => h u (List.mem_cons_of_mem _ hu)) m

/-! ## Claim theorems -/

/-- C6 counterexample: `parse_resolution` accepts `"PT-1M"` (Rust's `i64`
parse takes an optional sign), returning minus one minute, although `"-1"`
is not a run of digits — so "succeeds exactly when PT·digits·M" is false. -/
theorem c6_counterexample :
    parse_resolution "PT-1M" = .ok (-60) ∧ isDigitsForm "PT-1M" = false := by
  exact ⟨rfl, rfl⟩

/-- C6 (amended): for every string `s`, `parse_resolution s` succeeds exactly
when `s` consists of the prefix marker `"PT"`, then a signed 64-bit integer
literal (an optional `+`/`-` sign followed by digits, in `i64` range), then
the minutes marker `"M"`, in which case it returns a duration of that many
whole minutes (negative for a negative sign); any other pattern fails with
`InvalidResolution`. In particular hour/day/week granularities fail. -/
theorem c6_resolution_amended (s : String) :
    (∀ (t : List Char) (v : Int), s.toList = 'P' :: 'T' :: (t ++ ['M']) →
      parseI64 t = some v → parse_resolution s = .ok (60 * v)) ∧
    ((¬ ∃ t v, s.toList = 'P' :: 'T' :: (t ++ ['M']) ∧ parseI64 t = some v) →
      parse_resolution s = .error (.InvalidResolution s)) := by
  constructor
  · intro t v hshape hv
    obtain ⟨h1, h2, h3⟩ := ptm_shape_fields (t := t)
    simp only [parse_resolution, hshape, h1, h2, h3, hv]
    simp
  · intro hne
    simp only [parse_resolution]
    by_cases hguard : ¬ s.toList.take 2 = ['P', 'T'] ∨ ¬ s.toList.getLast? = some 'M'
    · rw [if_pos hguard]
    · push_neg at hguard
      obtain ⟨g1, g2⟩ := hguard
      have hs := ptm_shape_of_fields g1 g2
      cases hp : parseI64 ((s.toList.drop 2).dropLast) with
      | none => rw [if_neg (by push_neg; exact ⟨g1, g2⟩)]
      | some v => exact absurd ⟨_, v, hs, hp⟩ hne

/-- C6 witness: `"PT15M"` parses to a 15-minute (900 s) duration. -/
theorem c6_witness : parse_resolution "PT15M" = .ok 900 :=
  (c6_resolution_amended "PT15M").1 ['1', '5'] 15 rfl rfl

/-- C7: `filter_night_hours` retains a point iff its UTC hour-of-day is
`>= 22` or `< 6`; at the boundaries on 2023-08-14, 21:59 is excluded, 22:00
included, 05:59 included, 06:00 excluded. -/
theorem c7_night_filter :
    (∀ (series : List RenewableSurplus) (p : RenewableSurplus),
      p ∈ filter_night_hours series ↔
        p ∈ series ∧ (22 ≤ hourOfDay p.timestamp ∨ hourOfDay p.timestamp < 6)) ∧
    hourOfDay (1691971200 + 21 * 3600 + 59 * 60) = 21 ∧
    hourOfDay (1691971200 + 22 * 3600) = 22 ∧
    hourOfDay (1691971200 + 5 * 3600 + 59 * 60) = 5 ∧
    hourOfDay (1691971200 + 6 * 3600) = 6 ∧
    filter_night_hours [⟨1691971200 + 21 * 3600 + 59 * 60, some 0, some 0, some 0⟩] = [] ∧
    filter_night_hours [⟨1691971200 + 22 * 3600, some 0, some 0, some 0⟩] =
      [⟨1691971200 + 22 * 3600, some 0, some 0, some 0⟩] ∧
    filter_night_hours [⟨1691971200 + 5 * 3600 + 59 * 60, some 0, some 0, some 0⟩] =
      [⟨1691971200 + 5 * 3600 + 59 * 60, some 0, some 0, some 0⟩] ∧
    filter_night_hours [⟨1691971200 + 6 * 3600, some 0, some 0, some 0⟩] = [] := by
  refine ⟨?_, by decide, by decide, by decide, by decide, by decide, by decide, by decide,
    by decide⟩
  intro series p
  simp [filter_night_hours, List.mem_filter]

/-- C7 witness: the characterisation applied at a concrete one-point series
at 22:00 UTC. -/
theorem c7_witness :
    (⟨1691971200 + 22 * 3600, some 0, some 0, some 0⟩ : RenewableSurplus) ∈
      filter_night_hours [⟨1691971200 + 22 * 3600, some 0, some 0, some 0⟩] :=
  (c7_night_filter.1 _ _).mpr ⟨List.mem_singleton.mpr rfl, by decide⟩

/-- C1 counterexample: with hourly data replaced by one-minute resolution and
a raw point at `u32` position `2^31 + 1`, the code's `position as i32` cast
wraps, producing `start - 60 * 2^31` instead of the claimed
`start + resolution * (p - 1) = start + 60 * 2^31`. -/
theorem c1_counterexample :
    parse_timestamp "2023-08-14T00:00Z" = .ok 1691971200 ∧
    parse_resolution "PT1M" = .ok 60 ∧
    wrapPeriod.timestamped_points =
      .ok [⟨1691971200 - 60 * 2147483648, 2147483649, some 1⟩] ∧
    (1691971200 - 60 * 2147483648 : Int) ≠ 1691971200 + 60 * ((2147483649 : Int) - 1) := by
  refine ⟨rfl, rfl, ?_, by decide⟩
  rfl

/-- C1 (amended): for every Period whose start timestamp and resolution parse
successfully, `timestamped_points` returns exactly one `TimestampedPoint` per
`RawPoint`, in the original order, with the wire position preserved, where
the point at 1-based position `p` has timestamp
`start + resolution * (i32(p) - 1)` with `i32` the wrapping 32-bit signed
cast; for every position up to `2^31 - 1` this equals the claimed
`start + resolution * (p - 1)`, and position 1 maps exactly to the period
start. -/
theorem c1_reconstruction_amended (p : Period) (start res : Int)
    (hs : parse_timestamp p.time_interval.start = .ok start)
    (hr : parse_resolution p.resolution = .ok res) :
    p.timestamped_points = .ok (p.points.map (fun point =>
      { timestamp := start + res * i32sub (wrap32 (point.position : Int)) 1
        position := point.position
        quantity := point.quantity })) ∧
    (∀ n : Nat, n < 2147483648 →
      start + res * i32sub (wrap32 (n : Int)) 1 = start + res * ((n : Int) - 1)) ∧
    start + res * i32sub (wrap32 ((1 : Nat) : Int)) 1 = start := by
  refine ⟨?_, ?_, ?_⟩
  · unfold Period.timestamped_points
    rw [hs, exc_bind_ok, hr, exc_bind_ok]
  · intro n hn
    rw [i32sub_small hn]
  · rw [i32sub_small (by omega)]
    simp

/-- C1 witness: the amended reconstruction applied to the repository's own
test period (`PT60M` from `2023-08-14T00:00Z`, positions 1..3). -/
theorem c1_witness :
    sampleSeries.period.timestamped_points =
      .ok [⟨1691971200, 1, some 4933⟩, ⟨1691974800, 2, some 4832⟩,
        ⟨1691978400, 3, some 4911⟩] :=
  (c1_reconstruction_amended sampleSeries.period 1691971200 3600 rfl rfl).1

/-- C8 counterexample: a document whose only sub-series has an empty point
list but an unparseable start string makes `all_timestamped_points` return
`InvalidTimestamp`, not the claimed empty sequence. -/
theorem c8_counterexample :
    badStartDoc.time_series.all (fun ts => ts.period.points.isEmpty) = true ∧
    badStartDoc.all_timestamped_points = .error (.InvalidTimestamp "x") := by
  exact ⟨rfl, rfl⟩

/-- C8 (amended): a document with no sub-series, or in which every sub-series
has an empty point list **and** a start timestamp and resolution that parse,
yields the empty sequence and never an error; an empty-pointed sub-series
with a malformed start or resolution still fails the whole aggregation. -/
theorem c8_empty_document_amended (doc : GlMarketDocument)
    (h : doc.time_series = [] ∨ ∀ ts ∈ doc.time_series, ts.period.points = [] ∧
      (∃ t, parse_timestamp ts.period.time_interval.start = .ok t) ∧
      (∃ r, parse_resolution ts.period.resolution = .ok r)) :
    doc.all_timestamped_points = .ok [] := by
  have hb : buildMap doc.time_series [] = .ok [] := by
    rcases h with h | h
    · rw [h]; rfl
    · exact buildMap_id_of_empty_points doc.time_series h []
  unfold GlMarketDocument.all_timestamped_points
  rw [hb, exc_bind_ok]
  rfl

/-- C8 witness: both empty shapes — no sub-series at all, and one sub-series
with valid strings but no points — aggregate to the empty sequence. -/
theorem c8_witness :
    emptyDoc.all_timestamped_points = .ok [] ∧
    emptyPointsDoc.all_timestamped_points = .ok [] := by
  constructor
  · exact c8_empty_document_amended emptyDoc (Or.inl rfl)
  · refine c8_empty_document_amended emptyPointsDoc (Or.inr ?_)
    intro ts hts
    rw [List.mem_singleton.mp hts]
    exact ⟨rfl, ⟨1691971200, rfl⟩, ⟨3600, rfl⟩⟩


/-- C2: for every document in which no sub-series is malformed, the sum of
the quantities in the aggregated output equals `total_forecast`, the sum of
all raw point quantities across all sub-series — timestamp collisions are
added, never overwritten or dropped. -/
theorem c2_mass_conservation (doc : GlMarketDocument) (pts : List TimestampedPoint)
    (h : doc.all_timestamped_points = .ok pts) :
    rustSum (pts.map (·.quantity)) = doc.total_forecast := by
  obtain ⟨m, hm, hpts⟩ := all_timestamped_points_ok h
  have hsum := buildMap_ok_sum doc.time_series [] m hm
  have hperm : List.Perm
      ((List.insertionSort tsLe
        (m.map (fun e => { timestamp := e.1, position := 0, quantity := e.2 : TimestampedPoint }))).map
        (·.quantity))
      ((m.map (fun e => { timestamp := e.1, position := 0, quantity := e.2 : TimestampedPoint })).map
        (·.quantity)) :=
    (List.perm_insertionSort tsLe _).map _
  rw [rustSum_eq_sum, hpts, renumber_map_quantity, hperm.sum_eq, conv_map_quantity, hsum]
  simp [GlMarketDocument.total_forecast, rustSum_eq_sum]

/-- C2 witness: the aggregated output of the sample document sums to its
total forecast. -/
theorem c2_witness :
    rustSum (([⟨1691971200, 1, some 4933⟩, ⟨1691974800, 2, some 4832⟩,
        ⟨1691978400, 3, some 4911⟩] : List TimestampedPoint).map (·.quantity)) =
      sampleDoc.total_forecast :=
  c2_mass_conservation sampleDoc _ (by rfl)

/-- C5: sorted-by-timestamp is a postcondition of both aggregation and the
join: the aggregated output is sorted ascending by timestamp with positions
densely renumbered `1, 2, ...` in sorted order (wire positions discarded),
and the joined surplus series is sorted ascending by timestamp. -/
theorem c5_sorted_outputs :
    (∀ (doc : GlMarketDocument) (pts : List TimestampedPoint),
      doc.all_timestamped_points = .ok pts →
        List.Pairwise (· ≤ ·) (pts.map (·.timestamp)) ∧
        pts.map (·.position) = List.range' 1 pts.length) ∧
    (∀ (g l : GlMarketDocument) (s : List RenewableSurplus),
      get_renewable_surplus_series g l = .ok s →
        List.Pairwise (· ≤ ·) (s.map (·.timestamp))) := by
  constructor
  · intro doc pts h
    obtain ⟨m, hm, hpts⟩ := all_timestamped_points_ok h
    constructor
    · rw [hpts, renumber_map_timestamp]
      have hsorted := List.sorted_insertionSort tsLe
        (m.map (fun e => { timestamp := e.1, position := 0, quantity := e.2 : TimestampedPoint }))
      exact (List.pairwise_map).mpr hsorted
    · rw [hpts, renumber_map_position, renumber_length]
  · intro g l s h
    obtain ⟨gp, lp, hg, hl, hs⟩ := get_renewable_surplus_series_ok h
    rw [hs]
    have hsorted := List.sorted_insertionSort rsLe (computeSurpluses gp (buildLoadMap lp))
    exact (List.pairwise_map).mpr hsorted

/-- C5 witness: the sorted-postcondition applied to the sample documents. -/
theorem c5_witness :
    List.Pairwise (· ≤ ·)
      (([⟨1691971200, 1, some 4933⟩, ⟨1691974800, 2, some 4832⟩,
        ⟨1691978400, 3, some 4911⟩] : List TimestampedPoint).map (·.timestamp)) ∧
    ([⟨1691971200, 1, some 4933⟩, ⟨1691974800, 2, some 4832⟩,
        ⟨1691978400, 3, some 4911⟩] : List TimestampedPoint).map (·.position) =
      List.range' 1 3 ∧
    List.Pairwise (· ≤ ·)
      (([⟨1691971200, some 4933, some 80, some 4853⟩,
        ⟨1691974800, some 4832, some 200, some 4632⟩,
        ⟨1691978400, some 4911, some 100, some 4811⟩] : List RenewableSurplus).map
        (·.timestamp)) := by
  obtain ⟨h1, h2⟩ := c5_sorted_outputs.1 sampleDoc _ (by rfl)
  exact ⟨h1, h2, c5_sorted_outputs.2 sampleDoc loadDoc _ (by rfl)⟩

/-- C10: for every document in which no sub-series is malformed, the
aggregated output's timestamps are pairwise distinct and, with the sort,
strictly increasing — strictly stronger than non-decreasing. -/
theorem c10_strict_timestamps (doc : GlMarketDocument) (pts : List TimestampedPoint)
    (h : doc.all_timestamped_points = .ok pts) :
    (pts.map (·.timestamp)).Nodup ∧ List.Pairwise (· < ·) (pts.map (·.timestamp)) := by
  obtain ⟨m, hm, hpts⟩ := all_timestamped_points_ok h
  have hnd : (m.map Prod.fst).Nodup := buildMap_ok_nodup doc.time_series [] m hm (by simp)
  have hperm : List.Perm
      ((List.insertionSort tsLe
        (m.map (fun e => { timestamp := e.1, position := 0, quantity := e.2 : TimestampedPoint }))).map
        (·.timestamp))
      (m.map Prod.fst) := by
    have := (List.perm_insertionSort tsLe
      (m.map (fun e => { timestamp := e.1, position := 0, quantity := e.2 : TimestampedPoint }))).map
      (·.timestamp)
    rwa [conv_map_timestamp] at this
  have hnodup : ((List.insertionSort tsLe
      (m.map (fun e => { timestamp := e.1, position := 0, quantity := e.2 : TimestampedPoint }))).map
      (·.timestamp)).Nodup := hperm.nodup_iff.mpr hnd
  have hsorted : List.Pairwise (· ≤ ·) ((List.insertionSort tsLe
      (m.map (fun e => { timestamp := e.1, position := 0, quantity := e.2 : TimestampedPoint }))).map
      (·.timestamp)) :=
    (List.pairwise_map).mpr (List.sorted_insertionSort tsLe _)
  constructor
  · rw [hpts, renumber_map_timestamp]
    exact hnodup
  · rw [hpts, renumber_map_timestamp]
    exact (hsorted.and hnodup).imp (fun hab => lt_of_le_of_ne hab.1 hab.2)

/-- C10 witness: the sample document's aggregated timestamps are distinct and
strictly increasing. -/
theorem c10_witness :
    (([⟨1691971200, 1, some 4933⟩, ⟨1691974800, 2, some 4832⟩,
      ⟨1691978400, 3, some 4911⟩] : List TimestampedPoint).map (·.timestamp)).Nodup ∧
    List.Pairwise (· < ·)
      (([⟨1691971200, 1, some 4933⟩, ⟨1691974800, 2, some 4832⟩,
        ⟨1691978400, 3, some 4911⟩] : List TimestampedPoint).map (·.timestamp)) :=
  c10_strict_timestamps sampleDoc _ (by rfl)

/-- C3: every point emitted by the join (the matched set shared by
`find_max_renewable_surplus` and `get_renewable_surplus_series`) has a
timestamp present in both inputs, carries the generation point's quantity as
`generation` and the load entry at the same timestamp as `load`, and has
`surplus = generation - load` exactly; no timestamp present in only one
input appears, and nothing is synthesized for unmatched timestamps. -/
theorem c3_join_completeness :
    (∀ (gen load : List TimestampedPoint) (p : RenewableSurplus),
      p ∈ computeSurpluses gen (buildLoadMap load) →
        (∃ g ∈ gen, g.timestamp = p.timestamp ∧ p.generation = g.quantity) ∧
        (∃ l ∈ load, l.timestamp = p.timestamp ∧ p.load = l.quantity) ∧
        p.surplus = F64.sub p.generation p.load) ∧
    (∀ (gdoc ldoc : GlMarketDocument) (gp lp : List TimestampedPoint)
        (s : List RenewableSurplus),
      gdoc.all_timestamped_points = .ok gp → ldoc.all_timestamped_points = .ok lp →
      get_renewable_surplus_series gdoc ldoc = .ok s →
      ∀ p ∈ s,
        (∃ g ∈ gp, g.timestamp = p.timestamp ∧ p.generation = g.quantity) ∧
        (∃ l ∈ lp, l.timestamp = p.timestamp ∧ p.load = l.quantity) ∧
        p.surplus = F64.sub p.generation p.load) := by
  constructor
  · intro gen load p h
    exact computeSurpluses_sound h
  · intro gdoc ldoc gp lp s hg hl hs p hp
    obtain ⟨gp', lp', hg', hl', hseq⟩ := get_renewable_surplus_series_ok hs
    obtain rfl : gp' = gp := Except.ok.inj (hg'.symm.trans hg)
    obtain rfl : lp' = lp := Except.ok.inj (hl'.symm.trans hl)
    rw [hseq] at hp
    exact computeSurpluses_sound (((List.perm_insertionSort rsLe _).mem_iff).mp hp)

/-- C3 witness: the join of the sample generation and load documents, checked
at the matched point for `2023-08-14T00:00Z`. -/
theorem c3_witness :
    (∃ g ∈ ([⟨1691971200, 1, some 4933⟩, ⟨1691974800, 2, some 4832⟩,
        ⟨1691978400, 3, some 4911⟩] : List TimestampedPoint),
      g.timestamp =
        (⟨1691971200, some 4933, some 80, some 4853⟩ : RenewableSurplus).timestamp ∧
      (⟨1691971200, some 4933, some 80, some 4853⟩ : RenewableSurplus).generation =
        g.quantity) ∧
    (∃ l ∈ ([⟨1691971200, 1, some 80⟩, ⟨1691974800, 2, some 200⟩,
        ⟨1691978400, 3, some 100⟩] : List TimestampedPoint),
      l.timestamp =
        (⟨1691971200, some 4933, some 80, some 4853⟩ : RenewableSurplus).timestamp ∧
      (⟨1691971200, some 4933, some 80, some 4853⟩ : RenewableSurplus).load =
        l.quantity) ∧
    (⟨1691971200, some 4933, some 80, some 4853⟩ : RenewableSurplus).surplus =
      F64.sub (⟨1691971200, some 4933, some 80, some 4853⟩ : RenewableSurplus).generation
        (⟨1691971200, some 4933, some 80, some 4853⟩ : RenewableSurplus).load :=
  c3_join_completeness.2 sampleDoc loadDoc _ _
    [⟨1691971200, some 4933, some 80, some 4853⟩,
      ⟨1691974800, some 4832, some 200, some 4632⟩,
      ⟨1691978400, some 4911, some 100, some 4811⟩]
    (by rfl) (by rfl) (by rfl) _ (by decide)

/-- C4: in max-only mode, an empty matched set fails with `InvalidResponse`
while an non-empty one returns a matched point whose surplus is
greater-or-equal (in the real-number order on non-NaN surpluses, per the
spec's data model) to every matched point's; full-series mode on an empty
matched set returns the empty sequence, not an error. -/
theorem c4_max_only_result (gdoc ldoc : GlMarketDocument) (gp lp : List TimestampedPoint)
    (hg : gdoc.all_timestamped_points = .ok gp)
    (hl : ldoc.all_timestamped_points = .ok lp) :
    (computeSurpluses gp (buildLoadMap lp) = [] →
      find_max_renewable_surplus gdoc ldoc =
        .error (.InvalidResponse "No matching data points found") ∧
      get_renewable_surplus_series gdoc ldoc = .ok []) ∧
    (computeSurpluses gp (buildLoadMap lp) ≠ [] →
      (∀ p ∈ computeSurpluses gp (buildLoadMap lp), p.surplus ≠ none) →
      ∃ r ∈ computeSurpluses gp (buildLoadMap lp),
        find_max_renewable_surplus gdoc ldoc = .ok r ∧
        ∀ q ∈ computeSurpluses gp (buildLoadMap lp),
          F64.le q.surplus r.surplus = true) := by
  have hfm : find_max_renewable_surplus gdoc ldoc =
      (match rustMaxBy (computeSurpluses gp (buildLoadMap lp)) with
        | some m => .ok m
        | none => .error (.InvalidResponse "No matching data points found")) := by
    unfold find_max_renewable_surplus
    rw [hg, exc_bind_ok, hl, exc_bind_ok]
  have hsr : get_renewable_surplus_series gdoc ldoc =
      .ok (List.insertionSort rsLe (computeSurpluses gp (buildLoadMap lp))) := by
    unfold get_renewable_surplus_series
    rw [hg, exc_bind_ok, hl, exc_bind_ok]
  constructor
  · intro hempty
    rw [hempty] at hfm hsr
    exact ⟨hfm, hsr⟩
  · intro hne hnn
    obtain ⟨x, xs, hcs⟩ := List.exists_cons_of_ne_nil hne
    rw [hcs] at hfm
    have hmem := maxStep_mem xs x
    have hge := maxStep_ge xs x (by rw [← hcs]; exact fun y hy => hnn y hy)
    refine ⟨maxStep x xs, ?_, hfm, ?_⟩
    · rw [hcs]; exact hmem
    · intro q hq
      rw [hcs] at hq
      rcases List.mem_cons.mp hq with hq | hq
      · rw [hq]; exact hge.1
      · exact hge.2 q hq

/-- C4 witness: the empty matched set (empty generation document) yields
`InvalidResponse` in max-only mode and `ok []` in full-series mode, and the
sample join returns its maximum-surplus point. -/
theorem c4_witness :
    (find_max_renewable_surplus emptyDoc loadDoc =
        .error (.InvalidResponse "No matching data points found") ∧
      get_renewable_surplus_series emptyDoc loadDoc = .ok []) ∧
    ∃ r ∈ computeSurpluses
        [⟨1691971200, 1, some 4933⟩, ⟨1691974800, 2, some 4832⟩,
          ⟨1691978400, 3, some 4911⟩]
        (buildLoadMap [⟨1691971200, 1, some 80⟩, ⟨1691974800, 2, some 200⟩,
          ⟨1691978400, 3, some 100⟩]),
      find_max_renewable_surplus sampleDoc loadDoc = .ok r ∧
      ∀ q ∈ computeSurpluses
          [⟨1691971200, 1, some 4933⟩, ⟨1691974800, 2, some 4832⟩,
            ⟨1691978400, 3, some 4911⟩]
          (buildLoadMap [⟨1691971200, 1, some 80⟩, ⟨1691974800, 2, some 200⟩,
            ⟨1691978400, 3, some 100⟩]),
        F64.le q.surplus r.surplus = true :=
  ⟨(c4_max_only_result emptyDoc loadDoc _ _ (by rfl) (by rfl)).1 (by rfl),
    (c4_max_only_result sampleDoc loadDoc _ _ (by rfl) (by rfl)).2 (by decide) (by decide)⟩

/-- C9: when no raw point quantity is NaN, `min_max_with_time` is panic-free
(the `partial_cmp(..).unwrap()` branches are unreachable), returns `None`
exactly when the aggregated sequence is empty, and otherwise returns a
minimum-quantity point and a maximum-quantity point. -/
theorem c9_min_max_safe (doc : GlMarketDocument) (pts : List TimestampedPoint)
    (h : doc.all_timestamped_points = .ok pts)
    (hn : ∀ ts ∈ doc.time_series, ∀ pt ∈ ts.period.points, pt.quantity ≠ none) :
    ∃ r, min_max_with_time doc = some r ∧
      (r = .ok none ↔ pts = []) ∧
      (pts ≠ [] → ∃ mn mx, r = .ok (some (mn, mx)) ∧ mn ∈ pts ∧ mx ∈ pts ∧
        ∀ p ∈ pts, F64.le mn.quantity p.quantity = true ∧
          F64.le p.quantity mx.quantity = true) := by
  obtain ⟨m, hm, hpts⟩ := all_timestamped_points_ok h
  have hvals : ∀ v ∈ m.map Prod.snd, v ≠ none :=
    buildMap_ok_ne_none doc.time_series [] m hm hn (by simp)
  have hq : ∀ p ∈ pts, p.quantity ≠ none := by
    intro p hp
    rw [hpts] at hp
    obtain ⟨qq, hqmem, hts, hqty⟩ := mem_renumber hp
    have hmm : qq ∈ m.map
        (fun e => { timestamp := e.1, position := 0, quantity := e.2 : TimestampedPoint }) :=
      ((List.perm_insertionSort tsLe _).mem_iff).mp hqmem
    obtain ⟨e, he, heq⟩ := List.mem_map.mp hmm
    rw [← hqty, ← heq]
    exact hvals e.2 (List.mem_map_of_mem _ he)
  have hmm_eq : min_max_with_time doc =
      (if pts.isEmpty then some (.ok none)
       else match pMinBy pts, pMaxBy pts with
         | some mn, some mx => some (.ok (some (mn, mx)))
         | _, _ => none) := by
    unfold min_max_with_time
    rw [h]
  by_cases hemp : pts = []
  · subst hemp
    refine ⟨.ok none, ?_, by simp, fun hne => absurd rfl hne⟩
    rw [hmm_eq]
    rfl
  · obtain ⟨x, xs, rfl⟩ := List.exists_cons_of_ne_nil hemp
    have hx : x.quantity ≠ none := hq x (List.mem_cons_self _ _)
    have hxs : ∀ p ∈ xs, p.quantity ≠ none := fun p hp => hq p (List.mem_cons_of_mem _ hp)
    obtain ⟨mn, hmin, hminmem, hminle, hminall⟩ := pMinStep_sound xs x hx hxs
    obtain ⟨mx, hmax, hmaxmem, hmaxle, hmaxall⟩ := pMaxStep_sound xs x hx hxs
    have hmin' : pMinBy (x :: xs) = some mn := hmin
    have hmax' : pMaxBy (x :: xs) = some mx := hmax
    refine ⟨.ok (some (mn, mx)), ?_, by simp, ?_⟩
    · rw [hmm_eq]
      simp only [List.isEmpty_cons, if_false, Bool.false_eq_true]
      rw [hmin', hmax']
    · intro _
      refine ⟨mn, mx, rfl, hminmem, hmaxmem, ?_⟩
      intro p hp
      rcases List.mem_cons.mp hp with hp | hp
      · rw [hp]; exact ⟨hminle, hmaxle⟩
      · exact ⟨hminall p hp, hmaxall p hp⟩

/-- C9 witness: the sample document's min/max query returns the 01:00 point
(quantity 4832) as minimum and the 00:00 point (quantity 4933) as maximum. -/
theorem c9_witness :
    ∃ r, min_max_with_time sampleDoc = some r ∧
      (r = .ok none ↔
        ([⟨1691971200, 1, some 4933⟩, ⟨1691974800, 2, some 4832⟩,
          ⟨1691978400, 3, some 4911⟩] : List TimestampedPoint) = []) ∧
      (([⟨1691971200, 1, some 4933⟩, ⟨1691974800, 2, some 4832⟩,
          ⟨1691978400, 3, some 4911⟩] : List TimestampedPoint) ≠ [] →
        ∃ mn mx, r = .ok (some (mn, mx)) ∧
          mn ∈ ([⟨1691971200, 1, some 4933⟩, ⟨1691974800, 2, some 4832⟩,
            ⟨1691978400, 3, some 4911⟩] : List TimestampedPoint) ∧
          mx ∈ ([⟨1691971200, 1, some 4933⟩, ⟨1691974800, 2, some 4832⟩,
            ⟨1691978400, 3, some 4911⟩] : List TimestampedPoint) ∧
          ∀ p ∈ ([⟨1691971200, 1, some 4933⟩, ⟨1691974800, 2, some 4832⟩,
            ⟨1691978400, 3, some 4911⟩] : List TimestampedPoint),
            F64.le mn.quantity p.quantity = true ∧
              F64.le p.quantity mx.quantity = true) :=
  c9_min_max_safe sampleDoc _ (by rfl) (by decide)
